import Mathlib

/-!
Shallow embedding of the time-tracking application (src/db/mod.rs and
src/ui/mod.rs) and verification of its specification claims.

Modelling conventions:

* Machine integers (i64 ids, second counts) are modelled as Lean Int.
* A chrono DateTime<Utc> is a pair of whole seconds since the epoch and a
  nonnegative sub-second nanosecond part (chrono stores the floor of the
  instant in seconds plus nanoseconds in [0, 10^9)).
* SQLite TEXT timestamps are abstracted by the type SqlTs: the codec
  "%Y-%m-%d %H:%M:%S" / parse_from_rfc3339 is collapsed to a constructor
  SqlTs.valid carrying the denoted whole second, and SqlTs.malformed
  carrying a raw string that fails to parse.  The codec is injective and
  order-preserving on the second values (zero-padded digits compare like
  the instants they denote), so string comparison of two well-formed
  stored timestamps is modelled by Int comparison of their seconds.
* Stateful SQLite tables become a Db structure holding the rows in rowid
  order; INSERT appends, AUTOINCREMENT is a counter.
* A fallible rusqlite call is modelled by a Bool "fail" parameter at each
  call site of the UI core: when the flag is true the call returns Err and
  leaves the database unchanged, mirroring a failed statement.
* Rust's stable slice sort and the stable ORDER BY used by the queries are
  modelled with List.insertionSort (any stable sort of the same list by
  the same total preorder produces the same output list).
-/

namespace TimeTracking

/-- UTC instant as chrono represents it: whole seconds since the epoch plus
the sub-second nanosecond remainder. Formatting with second granularity
keeps only the secs field. -/
structure UtcTime where
  secs : Int
  nanos : Nat
deriving Repr, DecidableEq

/-- Stored SQLite TEXT timestamp, abstracting the string codec: valid n is a
well-formed "YYYY-MM-DD HH:MM:SS" string denoting the instant n (in whole
seconds since the epoch), malformed s is any string rejected by
DateTime::parse_from_rfc3339 in parse_datetime. -/
inductive SqlTs where
  | valid (secs : Int)
  | malformed (s : String)
deriving Repr, DecidableEq

/-- Strict "less than" on stored timestamp strings, as used by ORDER BY
start_time. On two well-formed strings the SQLite string order agrees with
the order of the denoted instants. The cross-shape cases depend on string
contents; no claim compares a well-formed with a malformed timestamp, so the
model fixes malformed-before-valid arbitrarily. -/
def tsLtB : SqlTs → SqlTs → Bool
  | .valid a, .valid b => a < b
  | .malformed a, .malformed b => a < b
  | .malformed _, .valid _ => true
  | .valid _, .malformed _ => false

/-- Helper function to parse SQLite datetime strings (db/mod.rs
parse_datetime): a well-formed string yields the instant it denotes, any
malformed string is silently replaced by the current time Utc::now()
(unwrap_or_else). The now argument is the wall clock at the moment of the
call, in whole seconds. -/
def parse_datetime (now : Int) : SqlTs → Int
  | .valid n => n
  | .malformed _ => now

/-- Row of the projects table. -/
structure ProjectRow where
  id : Int
  name : String
  color : String
  created_at : SqlTs
deriving Repr, DecidableEq

/-- Row of the time_entries table. -/
structure EntryRow where
  id : Int
  project_id : Option Int
  description : String
  start_time : SqlTs
  end_time : Option SqlTs
  created_at : SqlTs
deriving Repr, DecidableEq

/-- The SQLite database: rows in rowid order plus the AUTOINCREMENT
counters of the two tables. -/
structure Db where
  projects : List ProjectRow
  entries : List EntryRow
  nextProjectId : Int
  nextEntryId : Int
deriving Repr, DecidableEq

/-- In-memory Project (db/mod.rs struct Project) as read back from a row;
timestamps are parsed to whole seconds. -/
structure Project where
  id : Int
  name : String
  color : String
  created_at : Int
deriving Repr, DecidableEq

/-- In-memory TimeEntry (db/mod.rs struct TimeEntry) as read back from a
row; timestamps are parsed to whole seconds. -/
structure TimeEntry where
  id : Int
  project_id : Option Int
  description : String
  start_time : Int
  end_time : Option Int
  created_at : Int
deriving Repr, DecidableEq

/-- Mapping of a projects row to a Project, as every query_map closure in
db/mod.rs does it: parse created_at, substituting now on failure. -/
def parseProjectRow (now : Int) (r : ProjectRow) : Project :=
  { id := r.id
    name := r.name
    color := r.color
    created_at := parse_datetime now r.created_at }

/-- Mapping of a time_entries row to a TimeEntry, as every query_map closure
in db/mod.rs does it: parse each timestamp, substituting now on failure. -/
def parseEntryRow (now : Int) (r : EntryRow) : TimeEntry :=
  { id := r.id
    project_id := r.project_id
    description := r.description
    start_time := parse_datetime now r.start_time
    end_time := r.end_time.map (parse_datetime now)
    created_at := r.created_at |> parse_datetime now }

/-- The freshly created database (create_tables on an empty file): both
tables empty, AUTOINCREMENT counters at 1. -/
def Db.empty : Db :=
  { projects := [], entries := [], nextProjectId := 1, nextEntryId := 1 }

/-- Creates a new project (db/mod.rs create_project): INSERT assigns the
next id and created_at = datetime(now), then the row is read back. -/
def Db.create_project (db : Db) (name color : String) (now : Int) :
    Project × Db :=
  let row : ProjectRow :=
    { id := db.nextProjectId, name := name, color := color
      created_at := .valid now }
  (parseProjectRow now row,
   { db with projects := db.projects ++ [row]
             nextProjectId := db.nextProjectId + 1 })

/-- Name order used by ORDER BY name in get_all_projects. -/
def nameLe (a b : ProjectRow) : Prop := a.name ≤ b.name

instance : DecidableRel nameLe := fun a b => by
  unfold nameLe; infer_instance

/-- Retrieves all projects (db/mod.rs get_all_projects): all rows ordered
by name ascending, each parsed. -/
def Db.get_all_projects (db : Db) (now : Int) : List Project :=
  (db.projects.insertionSort nameLe).map (parseProjectRow now)

/-- Deletes a project by id (db/mod.rs delete_project). Only the projects
row is removed: although the schema declares the foreign key of
time_entries with ON DELETE SET NULL, the code never issues
PRAGMA foreign_keys = ON, and SQLite leaves foreign-key enforcement (and
with it the SET NULL action) disabled by default, so referencing entries
keep their project_id. -/
def Db.delete_project (db : Db) (id : Int) : Db :=
  { db with projects := db.projects.filter (fun p => p.id ≠ id) }

/-- Deletes a project with the SET NULL action the schema declares, i.e.
what the DELETE would do under PRAGMA foreign_keys = ON.

Modelled from the spec: "Any TimeEntry referencing this project has its
project reference cleared as a side effect of deletion."  This definition
follows the specification words and is compared against Db.delete_project,
which models what the code actually does. -/
def delete_project_spec (db : Db) (id : Int) : Db :=
  { db with
    projects := db.projects.filter (fun p => p.id ≠ id)
    entries := db.entries.map (fun e =>
      if e.project_id = some id then { e with project_id := none } else e) }

/-- Creates a new time entry (db/mod.rs create_entry): start_time is
formatted at second granularity (the nanosecond part is dropped), end_time
is NULL, created_at is datetime(now); the row is then read back through
parse_datetime. -/
def Db.create_entry (db : Db) (project_id : Option Int)
    (description : String) (start_time : UtcTime) (now : Int) :
    TimeEntry × Db :=
  let row : EntryRow :=
    { id := db.nextEntryId
      project_id := project_id
      description := description
      start_time := .valid start_time.secs
      end_time := none
      created_at := .valid now }
  (parseEntryRow now row,
   { db with entries := db.entries ++ [row]
             nextEntryId := db.nextEntryId + 1 })

/-- Stops a time entry (db/mod.rs stop_entry): UPDATE sets end_time (at
second granularity) on every row with this id; a no-op if no row matches. -/
def Db.stop_entry (db : Db) (id : Int) (end_time : Int) : Db :=
  { db with entries := db.entries.map (fun r =>
      if r.id = id then { r with end_time := some (.valid end_time) } else r) }

/-- Rows of time_entries with NULL end_time (the WHERE clause of
get_running_entry), in rowid order. -/
def Db.runningRows (db : Db) : List EntryRow :=
  db.entries.filter (fun r => r.end_time.isNone)

/-- Selection of the first row of ORDER BY start_time DESC LIMIT 1: the
first row (in table order) whose stored start_time string is maximal. -/
def pickLatest (rows : List EntryRow) : Option EntryRow :=
  rows.foldl (fun acc r =>
    match acc with
    | none => some r
    | some m => if tsLtB m.start_time r.start_time then some r else some m)
    none

/-- Gets the currently running time entry (db/mod.rs get_running_entry):
among the rows with NULL end_time, the one with the most recent stored
start_time, parsed; none if no row has NULL end_time. -/
def Db.get_running_entry (db : Db) (now : Int) : Option TimeEntry :=
  (pickLatest db.runningRows).map (parseEntryRow now)

/-- Calendar date of a stored timestamp as SQLite's date() computes it:
for a well-formed string the civil day it denotes (days since the epoch
stand in bijection with civil dates), NULL for a malformed string. -/
def dateKey : SqlTs → Option Int
  | .valid n => some (Int.fdiv n 86400)
  | .malformed _ => none

/-- Descending start_time order used by ORDER BY start_time DESC. -/
def startDescLe (a b : EntryRow) : Prop :=
  tsLtB a.start_time b.start_time = false

instance : DecidableRel startDescLe := fun a b => by
  unfold startDescLe; infer_instance

/-- Gets all time entries for a specific date (db/mod.rs
get_entries_for_date): rows whose date(start_time) equals the given day
(a malformed start_time has NULL date and never matches), ordered most
recent first, each parsed. -/
def Db.get_entries_for_date (db : Db) (day : Int) (now : Int) :
    List TimeEntry :=
  ((db.entries.filter (fun r => dateKey r.start_time = some day)).insertionSort
    startDescLe).map (parseEntryRow now)

/-- Deletes a time entry by id (db/mod.rs delete_entry); a no-op if no row
matches. -/
def Db.delete_entry (db : Db) (id : Int) : Db :=
  { db with entries := db.entries.filter (fun r => r.id ≠ id) }

/-- Gets a project by id (db/mod.rs get_project_by_id). -/
def Db.get_project_by_id (db : Db) (id : Int) (now : Int) : Option Project :=
  (db.projects.find? (fun p => p.id = id)).map (parseProjectRow now)

/-- Rust's Iterator::position: index of the first element satisfying the
predicate. -/
def position (p : α → Bool) : List α → Option Nat
  | [] => none
  | x :: xs => if p x then some 0 else (position p xs).map (· + 1)

/-- Application core state (ui/mod.rs struct AppState), restricted to the
fields feeding the timer/session logic: the cached running entry, the text
of the description field, the selected index of the project dropdown (0 is
the "No Project" item, i + 1 the i-th loaded project) and the database
connection. Pure widgets (labels, buttons, tray handle) carry no state the
claims mention and are omitted. -/
structure AppState where
  running_entry : Option TimeEntry
  description_text : String
  dropdown_index : Nat
  projects : List Project
  db : Db
deriving Repr, DecidableEq

/-- Gets the selected project_id from the dropdown (ui/mod.rs
get_selected_project_id): none at index 0, otherwise the id of the project
at index - 1 of the loaded projects list (none when out of bounds). -/
def AppState.get_selected_project_id (s : AppState) : Option Int :=
  if s.dropdown_index = 0 then none
  else (s.projects.get? (s.dropdown_index - 1)).map (fun p => p.id)

/-- Sets the dropdown selection based on project_id (ui/mod.rs
set_selected_project): the position of the project with this id in the
loaded projects list, or 0 (No Project) when the id is absent or none. -/
def AppState.set_selected_project (s : AppState) (project_id : Option Int) :
    AppState :=
  match project_id with
  | none => { s with dropdown_index := 0 }
  | some id =>
    match position (fun p => p.id = id) s.projects with
    | some index => { s with dropdown_index := index + 1 }
    | none => { s with dropdown_index := 0 }

/-- Starts a new time entry (ui/mod.rs start_timer): persists an entry at
start_time = now with the current description text and dropdown selection
and caches it as running_entry, returning true; when the INSERT fails
(createFail) the error is logged and false is returned with nothing
changed. -/
def AppState.start_timer (s : AppState) (now : Int) (createFail : Bool) :
    AppState × Bool :=
  let description := s.description_text
  let project_id := s.get_selected_project_id
  if createFail then (s, false)
  else
    let (entry, db) :=
      s.db.create_entry project_id description ⟨now, 0⟩ now
    ({ s with db := db, running_entry := some entry }, true)

/-- Stops the current time entry (ui/mod.rs stop_timer): when an entry is
running, persists end_time = now on its id, clears running_entry, clears
the description field and resets the dropdown, returning true; when the
UPDATE fails (stopFail) the error is logged and false is returned with
nothing changed; when nothing is running, returns false with nothing
changed. -/
def AppState.stop_timer (s : AppState) (now : Int) (stopFail : Bool) :
    AppState × Bool :=
  match s.running_entry with
  | some entry =>
    if stopFail then (s, false)
    else
      ({ s with db := s.db.stop_entry entry.id now
                running_entry := none
                description_text := ""
                dropdown_index := 0 }, true)
  | none => (s, false)

/-- Toggles the timer state (ui/mod.rs toggle_timer): stop if running, else
start. -/
def AppState.toggle_timer (s : AppState) (now : Int) (fail : Bool) :
    AppState × Bool :=
  if s.running_entry.isSome then s.stop_timer now fail
  else s.start_timer now fail

/-- Whole-second count displayed by ui/mod.rs format_elapsed: now minus
start_time, clamped at zero. -/
def elapsedSeconds (now start_time : Int) : Int :=
  max (now - start_time) 0

/-- Left-pads a two-digit decimal field. -/
def pad2 (n : Int) : String :=
  if n < 10 then "0" ++ toString n else toString n

/-- Formats a second count as HH:MM:SS (ui/mod.rs format_duration and the
format! in format_elapsed). -/
def format_duration (total_seconds : Int) : String :=
  let hours := total_seconds / 3600
  let minutes := (total_seconds % 3600) / 60
  let seconds := total_seconds % 60
  pad2 hours ++ ":" ++ pad2 minutes ++ ":" ++ pad2 seconds

/-- Formats elapsed time as HH:MM:SS (ui/mod.rs format_elapsed). -/
def format_elapsed (now start_time : Int) : String :=
  format_duration (elapsedSeconds now start_time)

/-- Continues a time entry (ui/mod.rs continue_entry): if a timer is
running, stop it first (the result is ignored: on a failed stop the
function proceeds anyway); then seed the description field and the project
dropdown from the source entry and start a new timer. -/
def AppState.continue_entry (s : AppState) (entry : TimeEntry) (now : Int)
    (stopFail createFail : Bool) : AppState × Bool :=
  let s1 := if s.running_entry.isSome then (s.stop_timer now stopFail).1 else s
  let s2 := { s1 with description_text := entry.description }
  let s3 := s2.set_selected_project entry.project_id
  s3.start_timer now createFail

/-- Deletes a time entry by id (ui/mod.rs delete_entry): refused with false
and no storage call when the id is the running entry's; otherwise the row
is deleted and true returned, or false when the DELETE fails
(deleteFail). -/
def AppState.delete_entry (s : AppState) (entry_id : Int)
    (deleteFail : Bool) : AppState × Bool :=
  let guard : Bool :=
    match s.running_entry with
    | some running => running.id = entry_id
    | none => false
  if guard then (s, false)
  else if deleteFail then (s, false)
  else ({ s with db := s.db.delete_entry entry_id }, true)

/-- Clamped duration of one entry in seconds ((end_time or now) minus
start_time, at least zero): the loop body shared by
calculate_entries_duration and create_project_breakdown. -/
def entryDuration (now : Int) (e : TimeEntry) : Int :=
  max ((e.end_time.getD now) - e.start_time) 0

/-- Calculates total duration for a list of entries (ui/mod.rs
calculate_entries_duration): the running sum of the clamped per-entry
durations. -/
def calculate_entries_duration (now : Int) (entries : List TimeEntry) : Int :=
  entries.foldl (fun total_seconds e => total_seconds + entryDuration now e) 0

/-- Adds a duration to the total of a key in an association list, appending
the key when absent: the contents of the project_times HashMap of
create_project_breakdown, represented in group-discovery order. -/
def addTotal (acc : List (Option Int × Int)) (pid : Option Int) (d : Int) :
    List (Option Int × Int) :=
  match acc with
  | [] => [(pid, d)]
  | (k, v) :: rest =>
    if k = pid then (k, v + d) :: rest else (k, v) :: addTotal rest pid d

/-- Per-project clamped duration totals of the entry loop of
create_project_breakdown, keyed by project_id, in group-discovery order. -/
def groupTotals (now : Int) (entries : List TimeEntry) :
    List (Option Int × Int) :=
  entries.foldl (fun acc e => addTotal acc e.project_id (entryDuration now e))
    []

/-- Name and color shown for a group (the project_info cache of
create_project_breakdown): the project's current name and color from the
database, or the "No Project" placeholder with the neutral color #888888
when the key is none or the lookup finds nothing. -/
def projectInfo (db : Db) (now : Int) (pid : Option Int) : String × String :=
  match pid with
  | some p =>
    match db.get_project_by_id p now with
    | some project => (project.name, project.color)
    | none => ("No Project", "#888888")
  | none => ("No Project", "#888888")

/-- Rendered breakdown row: group name, bar color, total duration. -/
def renderGroup (db : Db) (now : Int) (g : Option Int × Int) :
    String × String × Int :=
  ((projectInfo db now g.1).1, (projectInfo db now g.1).2, g.2)

/-- Descending-duration order of the sort_by comparator of
create_project_breakdown (b.1.cmp with a.1 on the durations). -/
def durDesc (a b : Option Int × Int) : Prop := b.2 ≤ a.2

instance : DecidableRel durDesc := fun a b => by
  unfold durDesc; infer_instance

instance : IsTotal (Option Int × Int) durDesc :=
  ⟨fun a b => le_total b.2 a.2⟩

instance : IsTrans (Option Int × Int) durDesc :=
  ⟨fun _ _ _ hab hbc => le_trans hbc hab⟩

/-- Creates the project breakdown rows (ui/mod.rs
create_project_breakdown). The group totals are drained from a HashMap
whose iteration order carries no guarantee; iter is that iteration order,
constrained (where this definition is used) to be some permutation of the
group totals. The rows are the stable descending-duration sort of iter,
each rendered with the group's name and color. -/
def create_project_breakdown (db : Db) (now : Int)
    (iter : List (Option Int × Int)) : List (String × String × Int) :=
  (iter.insertionSort durDesc).map (renderGroup db now)

/-- Breakdown as the specification words it: the stable
descending-duration sort of the group totals taken in group-discovery
order, so that equal totals stay in discovery order.

Modelled from the spec: "sorts descending by duration, ties broken by
insertion/group-discovery order (stable sort)."  Compared against
create_project_breakdown, which sorts an arbitrary hash-map iteration
order instead. -/
def breakdown_spec (db : Db) (now : Int) (entries : List TimeEntry) :
    List (String × String × Int) :=
  ((groupTotals now entries).insertionSort durDesc).map (renderGroup db now)

/-- One user-level operation of the timer state machine: the three Core
operations the invariant claim quantifies over, plus editing the
description/project inputs between them. Each storage-touching operation
carries the wall clock of the call and the fail flag of its storage
call. -/
inductive Op where
  | start (now : Int) (fail : Bool)
  | stop (now : Int) (fail : Bool)
  | toggle (now : Int) (fail : Bool)
  | setInput (desc : String) (index : Nat)
deriving Repr, DecidableEq

/-- State reached after one operation (returned flags are for the view
layer only and are dropped here). -/
def AppState.step (s : AppState) : Op → AppState
  | .start now fail => (s.start_timer now fail).1
  | .stop now fail => (s.stop_timer now fail).1
  | .toggle now fail => (s.toggle_timer now fail).1
  | .setInput desc index =>
    { s with description_text := desc, dropdown_index := index }

/-- State reached after a sequence of operations. -/
def AppState.run (s : AppState) : List Op → AppState
  | [] => s
  | op :: ops => (s.step op).run ops

/-- Checks that a sequence alternates correctly: start is only invoked when
no entry is running (the precondition the spec puts on callers; stop and
toggle are always allowed). -/
def alternatesFrom (s : AppState) : List Op → Bool
  | [] => true
  | op :: ops =>
    (match op with
     | .start _ _ => s.running_entry.isNone
     | _ => true) && alternatesFrom (s.step op) ops

/-- Core state at process start before restore: no cached running entry,
empty inputs, the loaded projects list and the opened database. -/
def initialState (projects : List Project) (db : Db) : AppState :=
  { running_entry := none
    description_text := ""
    dropdown_index := 0
    projects := projects
    db := db }

/-! Helper lemmas about the stored-timestamp order. -/

theorem tsLtB_irrefl (a : SqlTs) : tsLtB a a = false := by
  cases a with
  | valid n => simp [tsLtB]
  | malformed s => simp [tsLtB]

theorem tsLtB_trans {a b c : SqlTs} (hab : tsLtB a b = true)
    (hbc : tsLtB b c = true) : tsLtB a c = true := by
  cases a <;> cases b <;> cases c <;>
    simp only [tsLtB, decide_eq_true_eq] at hab hbc ⊢ <;>
    first
      | rfl
      | exact lt_trans hab hbc
      | simp at hab
      | simp at hbc

theorem tsLtB_lt_of_not_lt {m r m2 : SqlTs} (hmr : tsLtB m r = false)
    (hm2 : tsLtB m2 r = true) : tsLtB m2 m = true := by
  cases m <;> cases r <;> cases m2 <;>
    simp only [tsLtB, decide_eq_true_eq, decide_eq_false_iff_not]
      at hmr hm2 ⊢ <;>
    first
      | rfl
      | exact lt_of_lt_of_le hm2 (le_of_not_lt hmr)
      | exact hm2
      | exact hmr
      | simp at hmr
      | simp at hm2

/-! Helper lemmas about the ORDER BY start_time DESC LIMIT 1 selection. -/

theorem pickLatest_cons_spec (rows : List EntryRow) :
    ∀ m : EntryRow, ∃ m2,
      rows.foldl (fun acc r =>
          match acc with
          | none => some r
          | some m => if tsLtB m.start_time r.start_time then some r
                      else some m) (some m) = some m2 ∧
      m2 ∈ m :: rows ∧
      ∀ r ∈ m :: rows, tsLtB m2.start_time r.start_time = false := by
  induction rows with
  | nil =>
    intro m
    exact ⟨m, rfl, List.mem_cons_self m [], by
      intro r hr
      rcases List.mem_singleton.mp hr with rfl
      exact tsLtB_irrefl _⟩
  | cons r rest ih =>
    intro m
    by_cases h : tsLtB m.start_time r.start_time = true
    · obtain ⟨m2, hfold, hmem, hmax⟩ := ih r
      refine ⟨m2, by simpa [h] using hfold,
        List.mem_cons_of_mem _ hmem, ?_⟩
      intro x hx
      rcases List.mem_cons.mp hx with rfl | hx
      · by_contra hc
        have hlt : tsLtB m2.start_time x.start_time = true := by
          revert hc
          cases tsLtB m2.start_time x.start_time <;> simp
        have htr := tsLtB_trans hlt h
        have hr := hmax r (List.mem_cons_self r rest)
        simp [htr] at hr
      · exact hmax x hx
    · have h' : tsLtB m.start_time r.start_time = false := by
        revert h
        cases tsLtB m.start_time r.start_time <;> simp
      obtain ⟨m2, hfold, hmem, hmax⟩ := ih m
      refine ⟨m2, by simpa [h'] using hfold, ?_, ?_⟩
      · rcases List.mem_cons.mp hmem with rfl | hm2
        · exact List.mem_cons_self m2 _
        · exact List.mem_cons_of_mem _ (List.mem_cons_of_mem _ hm2)
      · intro x hx
        rcases List.mem_cons.mp hx with rfl | hx
        · exact hmax x (List.mem_cons_self x rest)
        · rcases List.mem_cons.mp hx with rfl | hx2
          · by_contra hc
            have hlt : tsLtB m2.start_time x.start_time = true := by
              revert hc
              cases tsLtB m2.start_time x.start_time <;> simp
            have hm2m : tsLtB m2.start_time m.start_time = true :=
              tsLtB_lt_of_not_lt h' hlt
            have hcontra := hmax m (List.mem_cons_self m rest)
            simp [hm2m] at hcontra
          · exact hmax x (List.mem_cons_of_mem _ hx2)

theorem pickLatest_nil : pickLatest [] = none := rfl

theorem pickLatest_spec (rows : List EntryRow) :
    (pickLatest rows = none ↔ rows = []) ∧
    ∀ m, pickLatest rows = some m → m ∈ rows ∧
      ∀ r ∈ rows, tsLtB m.start_time r.start_time = false := by
  cases rows with
  | nil =>
    exact ⟨by simp [pickLatest], fun m hm => by simp [pickLatest] at hm⟩
  | cons x rest =>
    obtain ⟨m2, hfold, hmem, hmax⟩ := pickLatest_cons_spec rest x
    have hpick : pickLatest (x :: rest) = some m2 := by
      simpa [pickLatest] using hfold
    constructor
    · simp [hpick]
    · intro m hm
      rw [hpick] at hm
      cases hm
      exact ⟨hmem, hmax⟩

/-! Helper lemmas about the running rows of the entries table. -/

theorem runningRows_create_entry (db : Db) (pid : Option Int) (d : String)
    (X : UtcTime) (now : Int) :
    ((db.create_entry pid d X now).2).runningRows =
      db.runningRows ++
        [{ id := db.nextEntryId, project_id := pid, description := d
           start_time := .valid X.secs, end_time := none
           created_at := .valid now }] := by
  simp [Db.create_entry, Db.runningRows, List.filter_append]

theorem filter_running_map_stop (i t : Int) (l : List EntryRow) :
    (l.map (fun r => if r.id = i
        then { r with end_time := some (.valid t) } else r)).filter
        (fun r => r.end_time.isNone) =
      (l.filter (fun r => r.end_time.isNone)).filter
        (fun r => decide (r.id ≠ i)) := by
  induction l with
  | nil => rfl
  | cons r rest ih =>
    by_cases hid : r.id = i
    · cases he : r.end_time with
      | none => simp [hid, he, ih]
      | some v => simp [hid, he, ih]
    · cases he : r.end_time with
      | none => simp [hid, he, ih]
      | some v => simp [hid, he, ih]

theorem stop_entry_nextEntryId (db : Db) (i t : Int) :
    (db.stop_entry i t).nextEntryId = db.nextEntryId := rfl

theorem runningRows_stop_entry (db : Db) (i t : Int) :
    (db.stop_entry i t).runningRows =
      db.runningRows.filter (fun r => decide (r.id ≠ i)) := by
  simpa [Db.stop_entry, Db.runningRows] using
    filter_running_map_stop i t db.entries

theorem runningRows_all_id_stop (db : Db) (i t : Int)
    (h : ∀ r ∈ db.runningRows, r.id = i) :
    (db.stop_entry i t).runningRows = [] := by
  rw [runningRows_stop_entry]
  apply List.filter_eq_nil_iff.mpr
  intro r hr
  simp [h r hr]

/-! Helper lemma turning the accumulator loop of
calculate_entries_duration into a mapped sum. -/

theorem foldl_add_eq_sum (f : TimeEntry → Int) (l : List TimeEntry) :
    ∀ a : Int, l.foldl (fun acc e => acc + f e) a = a + (l.map f).sum := by
  induction l with
  | nil => intro a; simp
  | cons e rest ih =>
    intro a
    simp [ih, add_assoc]

/-! Helper lemmas about Iterator::position. -/

theorem position_spec (p : α → Bool) :
    ∀ (l : List α) (i : Nat), position p l = some i →
      ∃ x, l.get? i = some x ∧ p x = true := by
  intro l
  induction l with
  | nil => intro i h; simp [position] at h
  | cons x xs ih =>
    intro i h
    by_cases hp : p x
    · simp [position, hp] at h
      subst h
      exact ⟨x, rfl, hp⟩
    · simp [position, hp] at h
      obtain ⟨j, hj, hji⟩ := h
      subst hji
      simpa using ih j hj

theorem position_eq_none (p : α → Bool) :
    ∀ l : List α, position p l = none → ∀ x ∈ l, p x = false := by
  intro l
  induction l with
  | nil => intro _ x hx; cases hx
  | cons y ys ih =>
    intro h x hx
    by_cases hp : p y
    · simp [position, hp] at h
    · simp [position, hp] at h
      rcases List.mem_cons.mp hx with rfl | hx
      · simpa using hp
      · exact ih h x hx

/-! Concrete states and databases used by the witnesses below. -/

/-- Completed sample entry. -/
def entryDone : TimeEntry :=
  { id := 1, project_id := none, description := "write reports"
    start_time := 0, end_time := some 10, created_at := 0 }

/-- Running sample entry. -/
def entryRunning : TimeEntry :=
  { id := 3, project_id := none, description := "debugging"
    start_time := 50, end_time := none, created_at := 50 }

/-- Database holding the rows behind the two sample entries. -/
def dbSample : Db :=
  { projects := []
    entries :=
      [{ id := 1, project_id := none, description := "write reports"
         start_time := .valid 0, end_time := some (.valid 10)
         created_at := .valid 0 },
       { id := 3, project_id := none, description := "debugging"
         start_time := .valid 50, end_time := none, created_at := .valid 50 }]
    nextProjectId := 1, nextEntryId := 4 }

/-- Core state with the sample timer running. -/
def sampleRunningState : AppState :=
  { running_entry := some entryRunning
    description_text := "debugging"
    dropdown_index := 0
    projects := []
    db := dbSample }

/-- C2: for every state, a stop that fails with a storage error leaves the
whole core state (and with it running_entry) unchanged and reports false,
a stop that succeeds clears running_entry to absent and reports true, and
a stop with nothing running is a no-op that reports false (nothing to
stop). -/
theorem stop_timer_storage_contract (s : AppState) (now : Int) :
    (s.running_entry = none → ∀ fail, s.stop_timer now fail = (s, false)) ∧
    (∀ e, s.running_entry = some e →
      s.stop_timer now true = (s, false) ∧
      (s.stop_timer now false).1.running_entry = none ∧
      (s.stop_timer now false).2 = true) := by
  constructor
  · intro h fail
    simp [AppState.stop_timer, h]
  · intro e he
    refine ⟨?_, ?_, ?_⟩ <;> simp [AppState.stop_timer, he]

/-- Witness for C2 at the concrete running state. -/
theorem stop_timer_storage_contract_witness :
    sampleRunningState.stop_timer 60 true = (sampleRunningState, false) ∧
    (sampleRunningState.stop_timer 60 false).1.running_entry = none ∧
    (sampleRunningState.stop_timer 60 false).2 = true :=
  (stop_timer_storage_contract sampleRunningState 60).2 entryRunning rfl

/-- C3: for every state, delete_entry on the id of the cached running entry
returns false and changes nothing (no storage call, the entry stays present
and running); on any other id it removes the row from storage and returns
true, unless the storage call failed, in which case it returns false and
changes nothing. -/
theorem delete_entry_guard (s : AppState) (entry_id : Int) :
    (∀ running fail, s.running_entry = some running →
      running.id = entry_id → s.delete_entry entry_id fail = (s, false)) ∧
    ((∀ running, s.running_entry = some running → running.id ≠ entry_id) →
      s.delete_entry entry_id false =
        ({ s with db := s.db.delete_entry entry_id }, true) ∧
      s.delete_entry entry_id true = (s, false)) := by
  constructor
  · intro running fail hrun hid
    simp [AppState.delete_entry, hrun, hid]
  · intro hothers
    cases hrun : s.running_entry with
    | none => exact ⟨by simp [AppState.delete_entry, hrun], by
        simp [AppState.delete_entry, hrun]⟩
    | some running =>
      have hid := hothers running hrun
      exact ⟨by simp [AppState.delete_entry, hrun, hid], by
        simp [AppState.delete_entry, hrun, hid]⟩

/-- Witness for C3 at the concrete running state: deleting the running id 3
is refused, deleting the completed id 1 succeeds and removes the row. -/
theorem delete_entry_guard_witness :
    sampleRunningState.delete_entry 3 false = (sampleRunningState, false) ∧
    sampleRunningState.delete_entry 1 false =
      ({ sampleRunningState with
          db := sampleRunningState.db.delete_entry 1 }, true) := by
  refine ⟨(delete_entry_guard sampleRunningState 3).1 entryRunning false
      rfl (by decide), ?_⟩
  exact ((delete_entry_guard sampleRunningState 1).2 (by
    intro running hrun
    rw [show sampleRunningState.running_entry = some entryRunning from rfl]
      at hrun
    cases hrun
    decide)).1

/-- Database with one project (id 1) referenced by one entry, used to
exhibit the foreign-key behavior of delete_project. -/
def dbC4 : Db :=
  { projects := [{ id := 1, name := "Work", color := "#3498db"
                   created_at := .valid 0 }]
    entries := [{ id := 1, project_id := some 1, description := "t"
                  start_time := .valid 0, end_time := some (.valid 10)
                  created_at := .valid 0 }]
    nextProjectId := 2, nextEntryId := 2 }

/-- C4: the code contradicts the declared ON DELETE SET NULL rule. After
delete_project(1) on a database whose only entry references project 1, the
project row is gone but the entry still carries project_id = some 1 (the
reference dangles, because foreign-key enforcement is never enabled on the
connection); the schema-declared SET NULL semantics, modelled by
delete_project_spec, would instead clear it to absent. -/
theorem delete_project_dangling_reference :
    (dbC4.delete_project 1).projects = [] ∧
    (dbC4.delete_project 1).entries.map (fun e => e.project_id) = [some 1] ∧
    (delete_project_spec dbC4 1).entries.map (fun e => e.project_id) =
      [none] ∧
    (dbC4.delete_project 1).entries.length = 1 := by
  decide

/-- C7: create_entry with start_time X followed by the read-back returns a
start_time equal to X at whole-second precision (the nanosecond remainder
is truncated away), and the truncation is consistent: equality and order
of the read-back values track equality and order of the whole-second parts
of the inputs. -/
theorem create_entry_roundtrip (db : Db) (project_id : Option Int)
    (description : String) (X : UtcTime) (now : Int) :
    (db.create_entry project_id description X now).1.start_time = X.secs ∧
    (∀ Y : UtcTime,
      ((db.create_entry project_id description X now).1.start_time =
          (db.create_entry project_id description Y now).1.start_time ↔
        X.secs = Y.secs) ∧
      ((db.create_entry project_id description X now).1.start_time ≤
          (db.create_entry project_id description Y now).1.start_time ↔
        X.secs ≤ Y.secs)) := by
  refine ⟨rfl, fun Y => ⟨Iff.rfl, Iff.rfl⟩⟩

/-- C8: the total duration of a list of entries is the sum over entries of
(end_time or now) minus start_time with each term clamped to at least
zero, the total and each term are never negative, and the elapsed seconds
of the timer display are now minus start_time clamped to zero. -/
theorem total_duration_clamped (now : Int) (entries : List TimeEntry)
    (start_time : Int) :
    calculate_entries_duration now entries =
      (entries.map
        (fun e => max ((e.end_time.getD now) - e.start_time) 0)).sum ∧
    0 ≤ calculate_entries_duration now entries ∧
    (∀ e : TimeEntry, 0 ≤ entryDuration now e) ∧
    elapsedSeconds now start_time = max (now - start_time) 0 ∧
    0 ≤ elapsedSeconds now start_time := by
  have hsum : calculate_entries_duration now entries =
      (entries.map (fun e => entryDuration now e)).sum := by
    simpa using foldl_add_eq_sum (entryDuration now) entries 0
  have hterm : ∀ e : TimeEntry, 0 ≤ entryDuration now e := by
    intro e
    exact le_max_right _ _
  refine ⟨by simpa [entryDuration] using hsum, ?_, hterm, rfl,
    le_max_right _ _⟩
  rw [hsum]
  apply List.sum_nonneg
  intro x hx
  obtain ⟨e, _, rfl⟩ := List.mem_map.mp hx
  exact hterm e

/-- C5: get_running_entry returns none exactly when no row has an absent
end_time, and when it returns an entry, that entry is the parse of a
stored row with absent end_time whose start_time is not exceeded by the
start_time of any other row with absent end_time (the most recent one
wins). -/
theorem get_running_entry_most_recent (db : Db) (now : Int) :
    (db.get_running_entry now = none ↔ db.runningRows = []) ∧
    (∀ e, db.get_running_entry now = some e →
      ∃ r, r ∈ db.entries ∧ r.end_time = none ∧ e = parseEntryRow now r ∧
        ∀ r2 ∈ db.entries, r2.end_time = none →
          tsLtB r.start_time r2.start_time = false) := by
  obtain ⟨hnone, hsome⟩ := pickLatest_spec db.runningRows
  constructor
  · constructor
    · intro h
      apply hnone.mp
      cases hp : pickLatest db.runningRows with
      | none => rfl
      | some m => simp [Db.get_running_entry, hp] at h
    · intro h
      simp [Db.get_running_entry, hnone.mpr h, pickLatest_nil, h]
  · intro e he
    cases hp : pickLatest db.runningRows with
    | none => simp [Db.get_running_entry, hp] at he
    | some m =>
      obtain ⟨hmem, hmax⟩ := hsome m hp
      have hm : e = parseEntryRow now m := by
        simp [Db.get_running_entry, hp] at he
        exact he.symm
      obtain ⟨hment, hmnone⟩ := List.mem_filter.mp hmem
      refine ⟨m, hment, Option.isNone_iff_eq_none.mp hmnone, hm, ?_⟩
      intro r2 h2mem h2none
      exact hmax r2 (List.mem_filter.mpr
        ⟨h2mem, by simp [h2none]⟩)

/-- Database with two rows with absent end_time, start times 100 and
200. -/
def dbTwoRunning : Db :=
  { projects := []
    entries :=
      [{ id := 1, project_id := none, description := "a"
         start_time := .valid 100, end_time := none, created_at := .valid 0 },
       { id := 2, project_id := none, description := "b"
         start_time := .valid 200, end_time := none, created_at := .valid 0 }]
    nextProjectId := 1, nextEntryId := 3 }

/-- Witness for C5: with absent-end rows at T1 = 100 < T2 = 200,
get_running_entry returns the T2 row, and on an empty database it returns
none. -/
theorem get_running_entry_most_recent_witness :
    (Db.get_running_entry dbTwoRunning 7).map (fun e => e.start_time) =
        some 200 ∧
    (∃ r, r ∈ dbTwoRunning.entries ∧ r.end_time = none ∧
      ({ id := 2, project_id := none, description := "b", start_time := 200
         end_time := none, created_at := 0 } : TimeEntry) =
        parseEntryRow 7 r ∧
      ∀ r2 ∈ dbTwoRunning.entries, r2.end_time = none →
        tsLtB r.start_time r2.start_time = false) ∧
    Db.get_running_entry Db.empty 7 = none :=
  ⟨by decide,
   (get_running_entry_most_recent dbTwoRunning 7).2 _ (by decide),
   (get_running_entry_most_recent Db.empty 7).1.mpr rfl⟩

/-- Project reference as the dropdown round-trip resolves it: the source id
itself when a project with that id is among the loaded projects, otherwise
none (set_selected_project falls back to the "No Project" item). -/
def resolveProject (projects : List Project) : Option Int → Option Int
  | none => none
  | some id =>
    if projects.any (fun p => p.id = id) then some id else none

theorem selected_after_set (s : AppState) (pid : Option Int) :
    (s.set_selected_project pid).get_selected_project_id =
      resolveProject s.projects pid := by
  cases pid with
  | none => simp [AppState.set_selected_project,
      AppState.get_selected_project_id, resolveProject]
  | some id =>
    cases hpos : position (fun p => p.id = id) s.projects with
    | none =>
      have hall := position_eq_none _ _ hpos
      have hany : s.projects.any (fun p => decide (p.id = id)) = false := by
        apply List.any_eq_false.mpr
        intro p hp
        simpa using hall p hp
      simp [AppState.set_selected_project, hpos,
        AppState.get_selected_project_id, resolveProject, hany]
    | some index =>
      obtain ⟨x, hget, hx⟩ := position_spec _ _ _ hpos
      have hany : s.projects.any (fun p => decide (p.id = id)) = true := by
        apply List.any_eq_true.mpr
        exact ⟨x, List.get?_mem hget, by simpa using hx⟩
      have hxid : x.id = id := by simpa using hx
      simp [AppState.set_selected_project, hpos,
        AppState.get_selected_project_id, resolveProject, hany]
      exact ⟨x, by simpa using hget, hxid⟩

theorem set_selected_project_description (s : AppState)
    (pid : Option Int) :
    (s.set_selected_project pid).description_text = s.description_text := by
  cases pid with
  | none => rfl
  | some id =>
    cases hpos : position (fun p => p.id = id) s.projects <;>
      simp [AppState.set_selected_project, hpos]

theorem set_selected_project_db (s : AppState) (pid : Option Int) :
    (s.set_selected_project pid).db = s.db := by
  cases pid with
  | none => rfl
  | some id =>
    cases hpos : position (fun p => p.id = id) s.projects <;>
      simp [AppState.set_selected_project, hpos]

theorem set_selected_project_projects (s : AppState) (pid : Option Int) :
    (s.set_selected_project pid).projects = s.projects := by
  cases pid with
  | none => rfl
  | some id =>
    cases hpos : position (fun p => p.id = id) s.projects <;>
      simp [AppState.set_selected_project, hpos]

/-- State at startup with no projects loaded, used to refute the claim that
continue_entry always seeds the new entry with the project of the source
entry. -/
def sNoProjects : AppState := initialState [] Db.empty

/-- Counterexample to C6 as stated: continuing a source entry whose
project_id is some 1 from a state whose loaded projects list is empty
starts the new entry with project_id = none, not some 1 (the seeding goes
through the project dropdown, and an id absent from the loaded list falls
back to the "No Project" item). -/
theorem continue_entry_counterexample :
    entryDone.project_id = none ∧
    ({ entryDone with project_id := some 1 } : TimeEntry).project_id =
      some 1 ∧
    ((sNoProjects.continue_entry { entryDone with project_id := some 1 }
        100 false false).1.running_entry.map (fun e => e.project_id)) =
      some none := by
  decide

/-- Row inserted by a successful start (the INSERT of create_entry), made
explicit for stating what continue_entry appends. -/
def newEntryRow (id : Int) (pid : Option Int) (desc : String) (now : Int) :
    EntryRow :=
  { id := id, project_id := pid, description := desc
    start_time := .valid now, end_time := none, created_at := .valid now }

/-- C6 amended: continue_entry stops the running timer first when one is
running and the stop succeeds (the pre-existing rows end up exactly as
stop_entry leaves them), proceeds anyway when the stop fails or nothing is
running (the pre-existing rows are untouched), and then starts and caches a
new running entry seeded with the description of the source entry and with
its project_id as resolved through the dropdown: the source project when
it is among the loaded projects, none otherwise. -/
theorem continue_entry_amended (s : AppState) (src : TimeEntry) (now : Int)
    (stopFail : Bool) :
    (s.continue_entry src now stopFail false).2 = true ∧
    (s.continue_entry src now stopFail false).1.running_entry =
      some { id := s.db.nextEntryId
             project_id := resolveProject s.projects src.project_id
             description := src.description
             start_time := now, end_time := none, created_at := now } ∧
    (∀ re, s.running_entry = some re → stopFail = false →
      (s.continue_entry src now stopFail false).1.db.entries =
        (s.db.stop_entry re.id now).entries ++
          [newEntryRow s.db.nextEntryId
            (resolveProject s.projects src.project_id)
            src.description now]) ∧
    (s.running_entry = none ∨ stopFail = true →
      (s.continue_entry src now stopFail false).1.db.entries =
        s.db.entries ++
          [newEntryRow s.db.nextEntryId
            (resolveProject s.projects src.project_id)
            src.description now]) := by
  cases hrun : s.running_entry with
  | none =>
    refine ⟨rfl, ?_, ?_, ?_⟩
    · simp [AppState.continue_entry, hrun, AppState.start_timer,
        Db.create_entry, parseEntryRow, parse_datetime, selected_after_set,
        set_selected_project_description, set_selected_project_db,
        set_selected_project_projects]
    · intro re hre
      cases hre
    · intro _
      simp [AppState.continue_entry, hrun, AppState.start_timer,
        Db.create_entry, newEntryRow, selected_after_set,
        set_selected_project_description, set_selected_project_db,
        set_selected_project_projects]
  | some re =>
    cases stopFail with
    | true =>
      refine ⟨rfl, ?_, ?_, ?_⟩
      · simp [AppState.continue_entry, hrun, AppState.stop_timer,
          AppState.start_timer, Db.create_entry, parseEntryRow,
          parse_datetime, selected_after_set,
          set_selected_project_description, set_selected_project_db,
          set_selected_project_projects]
      · intro re2 _ hfail
        cases hfail
      · intro _
        simp [AppState.continue_entry, hrun, AppState.stop_timer,
          AppState.start_timer, Db.create_entry, newEntryRow,
          selected_after_set, set_selected_project_description,
          set_selected_project_db, set_selected_project_projects]
    | false =>
      refine ⟨rfl, ?_, ?_, ?_⟩
      · simp [AppState.continue_entry, hrun, AppState.stop_timer,
          AppState.start_timer, Db.create_entry, parseEntryRow,
          parse_datetime, selected_after_set, stop_entry_nextEntryId,
          set_selected_project_description, set_selected_project_db,
          set_selected_project_projects]
      · intro re2 hre2 _
        injection hre2 with h
        subst h
        simp [AppState.continue_entry, hrun, AppState.stop_timer,
          AppState.start_timer, Db.create_entry, newEntryRow, Db.stop_entry,
          selected_after_set, set_selected_project_description,
          set_selected_project_db, set_selected_project_projects]
      · intro hcase
        rcases hcase with hnone | hfail
        · cases hnone
        · cases hfail

/-- Source entry carrying a project reference, used by the C6 theorems. -/
def srcC6 : TimeEntry := { entryDone with project_id := some 1 }

/-- State with one loaded project (id 1), used by the C6 witness. -/
def sWithProject : AppState :=
  initialState
    [{ id := 1, name := "Work", color := "#3498db", created_at := 0 }]
    Db.empty

/-- Witness for the amended C6: continuing a completed entry tagged with
the loaded project 1 from an idle state starts and caches a new running
entry with that project and the source description, and appends exactly
one new open row. -/
theorem continue_entry_amended_witness :
    (sWithProject.continue_entry srcC6 100 false false).1.running_entry =
      some { id := 1, project_id := some 1, description := "write reports"
             start_time := 100, end_time := none, created_at := 100 } ∧
    (sWithProject.continue_entry srcC6 100 false false).1.db.entries =
      [newEntryRow 1 (some 1) "write reports" 100] :=
  ⟨(continue_entry_amended sWithProject srcC6 100 false).2.1,
   (continue_entry_amended sWithProject srcC6 100 false).2.2.2
     (Or.inl rfl)⟩

/-- Database with one malformed stored timestamp on an open entry and one
malformed project timestamp, used by the C10 witness. -/
def dbMalformed : Db :=
  { projects := [{ id := 1, name := "Work", color := "#3498db"
                   created_at := .malformed "not a date" }]
    entries := [{ id := 1, project_id := none, description := "x"
                  start_time := .malformed "garbage"
                  end_time := none, created_at := .malformed "nope" }]
    nextProjectId := 2, nextEntryId := 2 }

/-- C10: parse_datetime substitutes the current time for a stored
timestamp string that fails to parse (and is the identity on well-formed
ones), and every read path is total and factors through it: get_all_projects
returns one parsed project per stored row (none dropped, no error),
get_running_entry and get_entries_for_date return only parses of stored
rows, and the read-back of create_entry is the parse of the row just
inserted, so a malformed stored timestamp surfaces as the current time
rather than as a failure. -/
theorem malformed_timestamp_reads (now : Int) :
    (∀ s, parse_datetime now (.malformed s) = now) ∧
    (∀ n, parse_datetime now (.valid n) = n) ∧
    (∀ db : Db, (db.get_all_projects now).length = db.projects.length) ∧
    (∀ (db : Db) p, p ∈ db.get_all_projects now →
      ∃ r, r ∈ db.projects ∧ p = parseProjectRow now r) ∧
    (∀ (db : Db) e, db.get_running_entry now = some e →
      ∃ r, r ∈ db.entries ∧ e = parseEntryRow now r) ∧
    (∀ (db : Db) day e, e ∈ db.get_entries_for_date day now →
      ∃ r, r ∈ db.entries ∧ e = parseEntryRow now r) ∧
    (∀ (db : Db) pid desc X,
      (db.create_entry pid desc X now).1 =
        parseEntryRow now
          { id := db.nextEntryId, project_id := pid, description := desc
            start_time := .valid X.secs, end_time := none
            created_at := .valid now }) := by
  refine ⟨fun s => rfl, fun n => rfl, ?_, ?_, ?_, ?_, fun db pid desc X => rfl⟩
  · intro db
    simp [Db.get_all_projects,
      (List.perm_insertionSort nameLe db.projects).length_eq]
  · intro db p hp
    obtain ⟨r, hr, rfl⟩ := List.mem_map.mp hp
    exact ⟨r, (List.perm_insertionSort nameLe db.projects).mem_iff.mp hr,
      rfl⟩
  · intro db e he
    cases hp : pickLatest db.runningRows with
    | none => simp [Db.get_running_entry, hp] at he
    | some m =>
      obtain ⟨hmem, _⟩ := (pickLatest_spec db.runningRows).2 m hp
      have hm : e = parseEntryRow now m := by
        simp [Db.get_running_entry, hp] at he
        exact he.symm
      exact ⟨m, (List.mem_filter.mp hmem).1, hm⟩
  · intro db day e he
    obtain ⟨r, hr, rfl⟩ := List.mem_map.mp he
    have hr2 := (List.perm_insertionSort startDescLe _).mem_iff.mp hr
    exact ⟨r, (List.mem_filter.mp hr2).1, rfl⟩

/-- Witness for C10: on a database whose only rows carry malformed
timestamp strings, the reads succeed and return the current time (42) in
place of each malformed field. -/
theorem malformed_timestamp_reads_witness :
    parse_datetime 42 (.malformed "garbage") = 42 ∧
    Db.get_running_entry dbMalformed 42 =
      some { id := 1, project_id := none, description := "x"
             start_time := 42, end_time := none, created_at := 42 } ∧
    Db.get_all_projects dbMalformed 42 =
      [{ id := 1, name := "Work", color := "#3498db", created_at := 42 }] ∧
    (∃ r, r ∈ dbMalformed.entries ∧
      ({ id := 1, project_id := none, description := "x", start_time := 42
         end_time := none, created_at := 42 } : TimeEntry) =
        parseEntryRow 42 r) :=
  ⟨(malformed_timestamp_reads 42).1 "garbage", by decide, by decide,
   (malformed_timestamp_reads 42).2.2.2.2.1 dbMalformed _ (by decide)⟩

/-- Total recorded for a group key in an association list (the read side
of the project_times map). -/
def lookupTotal (l : List (Option Int × Int)) (pid : Option Int) :
    Option Int :=
  (l.find? (fun g => g.1 = pid)).map (fun g => g.2)

/-- Sum of the clamped durations of the entries carrying a given
project_id. -/
def sumDur (now : Int) (pid : Option Int) (entries : List TimeEntry) :
    Int :=
  ((entries.filter (fun e => e.project_id = pid)).map
    (entryDuration now)).sum

theorem lookupTotal_cons (k : Option Int) (v : Int)
    (rest : List (Option Int × Int)) (pid : Option Int) :
    lookupTotal ((k, v) :: rest) pid =
      if k = pid then some v else lookupTotal rest pid := by
  by_cases h : k = pid <;> simp [lookupTotal, List.find?_cons, h]

theorem lookupTotal_addTotal (q pid : Option Int) (d : Int) :
    ∀ acc : List (Option Int × Int),
      lookupTotal (addTotal acc q d) pid =
        if pid = q then some ((lookupTotal acc pid).getD 0 + d)
        else lookupTotal acc pid := by
  intro acc
  induction acc with
  | nil =>
    by_cases h : pid = q
    · subst h
      simp [addTotal, lookupTotal_cons, lookupTotal]
    · simp [addTotal, lookupTotal_cons, lookupTotal, h, Ne.symm h]
  | cons kv rest ih =>
    obtain ⟨k, v⟩ := kv
    by_cases hk : k = q
    · subst hk
      by_cases hp : pid = k
      · subst hp
        simp [addTotal, lookupTotal_cons]
      · simp [addTotal, lookupTotal_cons, hp, Ne.symm hp]
    · by_cases hp : k = pid
      · subst hp
        have hpq : ¬ k = q := hk
        simp [addTotal, hk, lookupTotal_cons, fun hq : k = q => hk hq]
      · simp [addTotal, hk, lookupTotal_cons, hp, ih]

theorem sumDur_cons (now : Int) (pid : Option Int) (e : TimeEntry)
    (rest : List TimeEntry) :
    sumDur now pid (e :: rest) =
      (if e.project_id = pid then entryDuration now e else 0) +
        sumDur now pid rest := by
  by_cases h : e.project_id = pid <;> simp [sumDur, h]

theorem sumDur_eq_zero (now : Int) (pid : Option Int)
    (rest : List TimeEntry)
    (h : rest.any (fun e => e.project_id = pid) = false) :
    sumDur now pid rest = 0 := by
  have hfil : rest.filter (fun e => decide (e.project_id = pid)) = [] := by
    apply List.filter_eq_nil_iff.mpr
    intro e he
    simpa using List.any_eq_false.mp h e he
  simp [sumDur, hfil]

theorem lookupTotal_groupTotals (now : Int) (entries : List TimeEntry)
    (pid : Option Int) :
    lookupTotal (groupTotals now entries) pid =
      if entries.any (fun e => e.project_id = pid)
      then some (sumDur now pid entries) else none := by
  suffices h : ∀ acc : List (Option Int × Int),
      lookupTotal (entries.foldl
          (fun acc e => addTotal acc e.project_id (entryDuration now e))
          acc) pid =
        if entries.any (fun e => e.project_id = pid)
        then some ((lookupTotal acc pid).getD 0 + sumDur now pid entries)
        else lookupTotal acc pid by
    have h0 := h []
    by_cases hany : entries.any (fun e => e.project_id = pid) = true
    · simpa [groupTotals, hany, lookupTotal] using h0
    · have hany2 : entries.any (fun e => e.project_id = pid) = false := by
        revert hany
        cases entries.any (fun e => e.project_id = pid) <;> simp
      simpa [groupTotals, hany2, lookupTotal] using h0
  induction entries with
  | nil => intro acc; simp [sumDur]
  | cons e rest ih =>
    intro acc
    simp only [List.foldl_cons, List.any_cons]
    by_cases hpe : e.project_id = pid
    · have hq : pid = e.project_id := hpe.symm
      have hacc2 := lookupTotal_addTotal e.project_id pid
        (entryDuration now e) acc
      rw [if_pos hq] at hacc2
      rw [hpe] at hacc2
      by_cases hrest : rest.any (fun x => x.project_id = pid) = true
      · simp [ih, hrest, hpe, hacc2, sumDur_cons, add_assoc]
      · have hrest2 : rest.any (fun x => x.project_id = pid) = false := by
          revert hrest
          cases rest.any (fun x => x.project_id = pid) <;> simp
        simp [ih, hrest2, hpe, hacc2, sumDur_cons,
          sumDur_eq_zero now pid rest hrest2]
    · have hq : ¬ pid = e.project_id := fun hq => hpe hq.symm
      have hacc2 := lookupTotal_addTotal e.project_id pid
        (entryDuration now e) acc
      rw [if_neg hq] at hacc2
      simp [ih, hpe, hacc2, sumDur_cons]

/-- Entries of two different projects with equal durations (100 seconds
each), discovered in the order project 1 then project 2. -/
def entries9 : List TimeEntry :=
  [{ id := 1, project_id := some 1, description := "a", start_time := 0
     end_time := some 100, created_at := 0 },
   { id := 2, project_id := some 2, description := "b", start_time := 0
     end_time := some 100, created_at := 0 }]

/-- Database holding the two projects behind entries9. -/
def db9 : Db :=
  { projects := [{ id := 1, name := "Alpha", color := "#3498db"
                   created_at := .valid 0 },
                 { id := 2, name := "Beta", color := "#e74c3c"
                   created_at := .valid 0 }]
    entries := [], nextProjectId := 3, nextEntryId := 1 }

/-- Counterexample to C9 as stated: the group totals are drained from a
HashMap, whose iteration order carries no guarantee; for the iteration
order that yields the two equally-long groups as project 2 before
project 1 (a permutation of the totals, hence an admissible order), the
rendered breakdown differs from the spec-mandated discovery-order
tie-break (project 1 before project 2). -/
theorem create_project_breakdown_counterexample :
    ([((some 2 : Option Int), (100 : Int)), (some 1, 100)]).Perm
        (groupTotals 1000 entries9) ∧
    create_project_breakdown db9 1000 [(some 2, 100), (some 1, 100)] ≠
      breakdown_spec db9 1000 entries9 := by
  constructor
  · decide
  · decide

/-- C9 amended: for every admissible iteration order of the hash map
(i.e. every permutation of the group totals), the breakdown is a
permutation of the rendered group totals (one row per group of entries
sharing a project_id, carrying that group summed clamped duration), it is
ordered by descending duration, each group total is the sum of the
clamped durations of the entries with that project_id, and the absent
project_id group renders as "No Project" with the neutral color #888888.
The order among groups with equal durations is not specified: it is the
stable sort of whatever order the hash map yielded, not necessarily
discovery order. -/
theorem create_project_breakdown_amended (db : Db) (now : Int)
    (entries : List TimeEntry) (iter : List (Option Int × Int))
    (hperm : iter.Perm (groupTotals now entries)) :
    (create_project_breakdown db now iter).Perm
      ((groupTotals now entries).map (renderGroup db now)) ∧
    List.Pairwise (fun a b : String × String × Int => b.2.2 ≤ a.2.2)
      (create_project_breakdown db now iter) ∧
    (∀ pid, lookupTotal (groupTotals now entries) pid =
      if entries.any (fun e => e.project_id = pid)
      then some (sumDur now pid entries) else none) ∧
    (∀ d, renderGroup db now (none, d) = ("No Project", "#888888", d)) := by
  refine ⟨?_, ?_, fun pid => lookupTotal_groupTotals now entries pid,
    fun d => rfl⟩
  · exact ((List.perm_insertionSort durDesc iter).trans hperm).map _
  · exact List.Pairwise.map (renderGroup db now)
      (fun a b (h : durDesc a b) => h)
      (List.sorted_insertionSort durDesc iter)

/-- Witness for the amended C9 at the concrete entries and database, with
the iteration order equal to the discovery order. -/
theorem create_project_breakdown_amended_witness :
    (create_project_breakdown db9 1000 (groupTotals 1000 entries9)).Perm
      ((groupTotals 1000 entries9).map (renderGroup db9 1000)) ∧
    List.Pairwise (fun a b : String × String × Int => b.2.2 ≤ a.2.2)
      (create_project_breakdown db9 1000 (groupTotals 1000 entries9)) ∧
    lookupTotal (groupTotals 1000 entries9) (some 1) = some 100 :=
  ⟨(create_project_breakdown_amended db9 1000 entries9 _
      (List.Perm.refl _)).1,
   (create_project_breakdown_amended db9 1000 entries9 _
      (List.Perm.refl _)).2.1,
   by decide⟩

/-- Coherence invariant between the running-entry cache and the entries
table: at most one open row, no open row when the cache is empty, and
every open row carries the cached id when the cache is full. -/
def RunningInv (s : AppState) : Prop :=
  s.db.runningRows.length ≤ 1 ∧
  (s.running_entry = none → s.db.runningRows = []) ∧
  (∀ e, s.running_entry = some e → ∀ r ∈ s.db.runningRows, r.id = e.id)

theorem start_timer_preserves_inv (s : AppState) (now : Int) (fail : Bool)
    (hInv : RunningInv s) (hnone : s.running_entry = none) :
    RunningInv ((s.start_timer now fail).1) := by
  cases fail with
  | true => simpa [AppState.start_timer] using hInv
  | false =>
    have hempty : s.db.runningRows = [] := hInv.2.1 hnone
    have hdb : ((s.start_timer now false).1).db =
        (s.db.create_entry s.get_selected_project_id s.description_text
          ⟨now, 0⟩ now).2 := rfl
    have hre : ((s.start_timer now false).1).running_entry =
        some ((s.db.create_entry s.get_selected_project_id
          s.description_text ⟨now, 0⟩ now).1) := rfl
    refine ⟨?_, ?_, ?_⟩
    · rw [hdb, runningRows_create_entry, hempty]
      simp
    · rw [hre]
      intro h
      cases h
    · intro e he r hr
      rw [hre] at he
      injection he with he2
      rw [hdb, runningRows_create_entry, hempty] at hr
      simp at hr
      rw [hr, ← he2]
      rfl

theorem stop_timer_preserves_inv (s : AppState) (now : Int) (fail : Bool)
    (hInv : RunningInv s) : RunningInv ((s.stop_timer now fail).1) := by
  cases hrun : s.running_entry with
  | none => simpa [AppState.stop_timer, hrun] using hInv
  | some e =>
    cases fail with
    | true => simpa [AppState.stop_timer, hrun] using hInv
    | false =>
      have hids : ∀ r ∈ s.db.runningRows, r.id = e.id := hInv.2.2 e hrun
      have hdb : ((s.stop_timer now false).1).db =
          s.db.stop_entry e.id now := by
        simp [AppState.stop_timer, hrun]
      have hrows : ((s.stop_timer now false).1).db.runningRows = [] := by
        rw [hdb]
        exact runningRows_all_id_stop s.db e.id now hids
      exact ⟨by rw [hrows]; simp, fun _ => hrows,
        fun e2 he2 r hr => by rw [hrows] at hr; cases hr⟩

theorem step_preserves_inv (s : AppState) (op : Op) (hInv : RunningInv s)
    (hok : ∀ now fail, op = Op.start now fail → s.running_entry = none) :
    RunningInv (s.step op) := by
  cases op with
  | start now fail =>
    exact start_timer_preserves_inv s now fail hInv (hok now fail rfl)
  | stop now fail => exact stop_timer_preserves_inv s now fail hInv
  | toggle now fail =>
    by_cases h : s.running_entry.isSome = true
    · have hstep : s.step (.toggle now fail) = (s.stop_timer now fail).1 := by
        simp [AppState.step, AppState.toggle_timer, h]
      rw [hstep]
      exact stop_timer_preserves_inv s now fail hInv
    · have hnone : s.running_entry = none := by
        cases hr : s.running_entry with
        | none => rfl
        | some e => rw [hr] at h; simp at h
      have hstep : s.step (.toggle now fail) = (s.start_timer now fail).1 := by
        simp [AppState.step, AppState.toggle_timer, h]
      rw [hstep]
      exact start_timer_preserves_inv s now fail hInv hnone
  | setInput desc index => exact ⟨hInv.1, hInv.2.1, hInv.2.2⟩

theorem run_preserves_inv (ops : List Op) :
    ∀ s : AppState, RunningInv s → alternatesFrom s ops = true →
      RunningInv (s.run ops) := by
  induction ops with
  | nil => intro s h _; exact h
  | cons op rest ih =>
    intro s hInv halt
    cases op with
    | start now fail =>
      have h1 : (s.running_entry.isNone &&
          alternatesFrom (s.step (.start now fail)) rest) = true := halt
      obtain ⟨hc, hrest⟩ := Bool.and_eq_true_iff.mp h1
      exact ih _ (start_timer_preserves_inv s now fail hInv
        (Option.isNone_iff_eq_none.mp hc)) hrest
    | stop now fail =>
      have h1 : (true &&
          alternatesFrom (s.step (.stop now fail)) rest) = true := halt
      obtain ⟨_, hrest⟩ := Bool.and_eq_true_iff.mp h1
      exact ih _ (stop_timer_preserves_inv s now fail hInv) hrest
    | toggle now fail =>
      have h1 : (true &&
          alternatesFrom (s.step (.toggle now fail)) rest) = true := halt
      obtain ⟨_, hrest⟩ := Bool.and_eq_true_iff.mp h1
      exact ih _ (step_preserves_inv s (.toggle now fail) hInv
        (fun _ _ h => nomatch h)) hrest
    | setInput desc index =>
      have h1 : (true &&
          alternatesFrom (s.step (.setInput desc index)) rest) = true := halt
      obtain ⟨_, hrest⟩ := Bool.and_eq_true_iff.mp h1
      exact ih _ (step_preserves_inv s (.setInput desc index) hInv
        (fun _ _ h => nomatch h)) hrest

/-- C1: starting from a fresh database, after any sequence of
start/stop/toggle operations (with arbitrary interleaved input edits and
arbitrary storage failures) in which start is only invoked while no entry
is running, at most one time_entries row has an absent end_time, and
get_running_entry returns at most one entry. -/
theorem at_most_one_running (projects : List Project) (ops : List Op)
    (halt : alternatesFrom (initialState projects Db.empty) ops = true) :
    ((initialState projects Db.empty).run ops).db.runningRows.length ≤ 1 ∧
    ∀ now, (((initialState projects Db.empty).run ops).db.get_running_entry
      now).toList.length ≤ 1 := by
  have hInv0 : RunningInv (initialState projects Db.empty) := by
    refine ⟨by simp [initialState, Db.empty, Db.runningRows],
      fun _ => rfl, ?_⟩
    intro e he r hr
    cases he
  have h := run_preserves_inv ops (initialState projects Db.empty)
    hInv0 halt
  refine ⟨h.1, ?_⟩
  intro now
  cases hg : ((initialState projects Db.empty).run
      ops).db.get_running_entry now <;>
    simp [Option.toList]

/-- Operation sequence exercising all three operations, an input edit and
a failed start. -/
def opsC1 : List Op :=
  [.start 0 false, .stop 5 false, .toggle 6 false, .setInput "w" 0,
   .toggle 9 false, .start 12 true, .start 14 false]

/-- Witness for C1: the sample sequence alternates correctly and leaves
exactly one open row. -/
theorem at_most_one_running_witness :
    alternatesFrom (initialState [] Db.empty) opsC1 = true ∧
    ((initialState [] Db.empty).run opsC1).db.runningRows.length ≤ 1 ∧
    (((initialState [] Db.empty).run opsC1).db.get_running_entry
      20).toList.length ≤ 1 :=
  ⟨by decide, (at_most_one_running [] opsC1 (by decide)).1,
   (at_most_one_running [] opsC1 (by decide)).2 20⟩

end TimeTracking
